import Mathlib

/-!
Verification development for the Doc2Mcp deep-research core.

The Python sources under doc2mcp (agents/doc_search.py, sitemap_index.py,
cache.py, fetchers/web.py) are embedded shallowly: pure string helpers become
Lean functions over the character list of a string, stateful loops become
fuelled state-transformers, and network plus LLM effects become explicit
oracle functions passed as arguments.  Machine floats of the scoring code are
modelled by rationals, and Python str operations are modelled for the ASCII
range actually exercised by the code.
-/

namespace Doc2Mcp

/-! ### Python string primitives (ASCII model) -/

/-- Model of the effect of Python str.lower on one character (ASCII range). -/
def lowerChar (c : Char) : Char :=
  if 65 ≤ c.toNat ∧ c.toNat ≤ 90 then Char.ofNat (c.toNat + 32) else c

/-- Model of the effect of Python str.upper on one character (ASCII range). -/
def upperChar (c : Char) : Char :=
  if 97 ≤ c.toNat ∧ c.toNat ≤ 122 then Char.ofNat (c.toNat - 32) else c

/-- Model of Python str.lower (ASCII model). -/
def py_lower (s : String) : String := String.mk (s.data.map lowerChar)

/-- Whitespace characters of the Python regex class backslash-s and of str.strip. -/
def space_chars : List Char := [' ', '\t', '\n', '\r', Char.ofNat 11, Char.ofNat 12]

/-- Model of Python str.strip with no arguments. -/
def py_strip (s : String) : String :=
  String.mk ((((s.data.dropWhile (fun c => c ∈ space_chars)).reverse).dropWhile
    (fun c => c ∈ space_chars)).reverse)

/-- Python slicing s[:n] (character based, as in Python). -/
def py_take (n : ℕ) (s : String) : String := String.mk (s.data.take n)

/-- Drop the last n characters of a string (used to strip a file extension). -/
def drop_right (n : ℕ) (s : String) : String :=
  String.mk (s.data.take (s.data.length - n))

/-- Does the first list occur as a leading segment of the second list. -/
def startsL : List Char → List Char → Bool
  | [], _ => true
  | _ :: _, [] => false
  | a :: as, b :: bs => a = b && startsL as bs

/-- Model of Python str.startswith. -/
def str_starts (pre s : String) : Bool := startsL pre.data s.data

/-- Model of Python str.endswith. -/
def ends_with (suf s : String) : Bool := startsL suf.data.reverse s.data.reverse

/-- Model of the Python substring test (the in operator on str). -/
def is_sub : List Char → List Char → Bool
  | n, [] => decide (n = [])
  | n, c :: cs => startsL n (c :: cs) || is_sub n cs

/-- Split a character list at every occurrence of one of the separator
characters.  This models re.split over a character class.  A class followed by
a plus in the source merges separator runs; the only difference with this model
is extra empty pieces, which every caller in the source discards (by a length
filter or by intersection with sets of nonempty tokens). -/
def split_chars_aux (seps : List Char) : List Char → List Char → List String
  | [], cur => [String.mk cur.reverse]
  | c :: cs, cur =>
    if c ∈ seps then String.mk cur.reverse :: split_chars_aux seps cs []
    else split_chars_aux seps cs (c :: cur)

/-- Split a string on a set of separator characters; see split_chars_aux. -/
def split_chars (seps : List Char) (s : String) : List String :=
  split_chars_aux seps s.data []

/-- Model of Python str.title restricted to ASCII letters: a letter is
uppercased when the previous character is not a letter, lowercased otherwise. -/
def title_aux : Bool → List Char → List Char
  | _, [] => []
  | prev, c :: cs =>
    if (65 ≤ c.toNat ∧ c.toNat ≤ 90) ∨ (97 ≤ c.toNat ∧ c.toNat ≤ 122) then
      (if prev then lowerChar c else upperChar c) :: title_aux true cs
    else c :: title_aux false cs

/-- Model of Python str.title (ASCII model). -/
def py_title (s : String) : String := String.mk (title_aux false s.data)

/-- Replace dashes and underscores by spaces, as the sitemap title hint does. -/
def dash_to_space (s : String) : String :=
  String.mk (s.data.map (fun c => if c = '-' ∨ c = '_' then ' ' else c))

/-! ### Facts about the character model -/

theorem charOfNat_toNat (n : ℕ) (hv : n.isValidChar) : (Char.ofNat n).toNat = n := by
  unfold Char.ofNat
  rw [dif_pos hv]
  unfold Char.ofNatAux Char.toNat
  simp [UInt32.toNat, BitVec.toNat_ofNatLt]

/-- A character is ASCII uppercase when its code point lies in 65..90. -/
def ascii_upper (c : Char) : Prop := 65 ≤ c.toNat ∧ c.toNat ≤ 90

instance (c : Char) : Decidable (ascii_upper c) := by
  unfold ascii_upper
  infer_instance

theorem lowerChar_not_upper (c : Char) : ¬ ascii_upper (lowerChar c) := by
  unfold lowerChar ascii_upper
  by_cases h : 65 ≤ c.toNat ∧ c.toNat ≤ 90
  · rw [if_pos h]
    have hv : (c.toNat + 32).isValidChar := by
      left
      omega
    rw [charOfNat_toNat (c.toNat + 32) hv]
    omega
  · rw [if_neg h]
    omega

/-- A string with no ASCII uppercase characters; the formal reading of the
lowercased claim for extracted keywords. -/
def no_ascii_upper (s : String) : Prop := ∀ c ∈ s.data, ¬ ascii_upper c

instance (s : String) : Decidable (no_ascii_upper s) := by
  unfold no_ascii_upper
  exact List.decidableBAll _ s.data

theorem py_lower_no_upper (s : String) : no_ascii_upper (py_lower s) := by
  intro c hc
  unfold py_lower at hc
  simp only [List.mem_map] at hc
  obtain ⟨d, _, hd⟩ := hc
  rw [← hd]
  exact lowerChar_not_upper d

/-- Every character of a piece produced by split_chars_aux occurs in the input
or in the accumulator. -/
theorem split_chars_aux_chars (seps : List Char) :
    ∀ (cs cur : List Char) (p : String), p ∈ split_chars_aux seps cs cur →
      ∀ c ∈ p.data, c ∈ cs ∨ c ∈ cur := by
  intro cs
  induction cs with
  | nil =>
    intro cur p hp c hc
    simp only [split_chars_aux, List.mem_singleton] at hp
    subst hp
    right
    simpa using hc
  | cons x xs ih =>
    intro cur p hp c hc
    simp only [split_chars_aux] at hp
    by_cases hx : x ∈ seps
    · rw [if_pos hx] at hp
      rcases List.mem_cons.mp hp with h1 | h2
      · subst h1
        right
        simpa using hc
      · rcases ih [] p h2 c hc with h | h
        · left
          exact List.mem_cons_of_mem _ h
        · simp at h
    · rw [if_neg hx] at hp
      rcases ih (x :: cur) p hp c hc with h | h
      · left
        exact List.mem_cons_of_mem _ h
      · rcases List.mem_cons.mp h with h1 | h2
        · left
          rw [h1]
          exact List.mem_cons_self _ _
        · right
          exact h2

theorem split_chars_no_upper (seps : List Char) (s : String) (p : String)
    (hp : p ∈ split_chars seps (py_lower s)) : no_ascii_upper p := by
  intro c hc
  rcases split_chars_aux_chars seps (py_lower s).data [] p hp c hc with h | h
  · exact py_lower_no_upper (s := s) c h
  · simp at h

/-! ### URL helpers: a model of urllib.parse for the absolute http(s) URLs
the crawler manipulates (scheme://host/path?query#fragment, no dot-segment
normalization, no user or port syntax). -/

/-- Return the suffix of the list that follows the first occurrence of the
marker, if the marker occurs at all. -/
def after_marker (m : List Char) : List Char → Option (List Char)
  | [] => none
  | c :: cs =>
    if startsL m (c :: cs) then some ((c :: cs).drop m.length)
    else after_marker m cs

/-- Model of urlparse(url).netloc for absolute URLs. -/
def netloc_of (url : String) : String :=
  match after_marker "://".data url.data with
  | none => ""
  | some rest =>
    String.mk (rest.takeWhile (fun c => ¬(c = '/' ∨ c = '?' ∨ c = '#')))

/-- Model of urlparse(url).path. -/
def path_of (url : String) : String :=
  match after_marker "://".data url.data with
  | none => String.mk (url.data.takeWhile (fun c => ¬(c = '?' ∨ c = '#')))
  | some rest =>
    let after := rest.dropWhile (fun c => ¬(c = '/' ∨ c = '?' ∨ c = '#'))
    match after with
    | '/' :: _ => String.mk (after.takeWhile (fun c => ¬(c = '?' ∨ c = '#')))
    | _ => ""

/-- Is the character admissible inside a URL scheme. -/
def scheme_char (c : Char) : Bool :=
  (65 ≤ c.toNat ∧ c.toNat ≤ 90) ∨ (97 ≤ c.toNat ∧ c.toNat ≤ 122) ∨
    (48 ≤ c.toNat ∧ c.toNat ≤ 57) ∨ c = '+' ∨ c = '-' ∨ c = '.'

/-- Does the string begin with scheme-colon (letter first, scheme characters,
then a colon), as urlparse recognizes a scheme. -/
def has_scheme (href : String) : Bool :=
  match href.data with
  | [] => false
  | c :: _ =>
    ((65 ≤ c.toNat ∧ c.toNat ≤ 90) ∨ (97 ≤ c.toNat ∧ c.toNat ≤ 122) : Bool) &&
      (let pre := href.data.takeWhile scheme_char
       startsL [':'] (href.data.drop pre.length))

/-- The scheme of an absolute URL (text before the first colon). -/
def scheme_of (url : String) : String :=
  String.mk (url.data.takeWhile (fun c => ¬ c = ':'))

/-- scheme://netloc of an absolute URL. -/
def origin_of (url : String) : String :=
  scheme_of url ++ "://" ++ netloc_of url

/-- The directory part of the path of an absolute URL, including the final
slash; the root slash when the path has no slash. -/
def dir_of (url : String) : String :=
  let p := (path_of url).data
  let d := (p.reverse.dropWhile (fun c => ¬ c = '/')).reverse
  if d = [] then "/" else String.mk d

/-- Model of urllib.parse.urljoin for the cases the fetchers exercise: an
absolute reference (any scheme, for instance mailto:, tel:, javascript:,
https://) is returned verbatim, a network-path reference inherits the base
scheme, a root-relative path replaces the base path and a relative path is
appended to the base directory.  Dot-segment normalization is not modelled. -/
def py_urljoin (base href : String) : String :=
  if href = "" then base
  else if has_scheme href then href
  else if str_starts "//" href then scheme_of base ++ ":" ++ href
  else if str_starts "/" href then origin_of base ++ href
  else origin_of base ++ dir_of base ++ href

/-! ### Python int() truncation on rationals and the sitemap priority map -/

/-- Model of the Python int() conversion on a float: truncation toward zero. -/
def py_int (q : ℚ) : ℤ := if 0 ≤ q then ⌊q⌋ else ⌈q⌉

theorem py_int_mono {a b : ℚ} (h : a ≤ b) : py_int a ≤ py_int b := by
  unfold py_int
  by_cases ha : 0 ≤ a
  · rw [if_pos ha, if_pos (le_trans ha h)]
    exact Int.floor_le_floor h
  · rw [if_neg ha]
    by_cases hb : 0 ≤ b
    · rw [if_pos hb]
      have h1 : (⌈a⌉ : ℤ) ≤ 0 := by
        apply Int.ceil_le.mpr
        push_cast
        linarith
      have h2 : (0 : ℤ) ≤ ⌊b⌋ := Int.le_floor.mpr (by exact_mod_cast hb)
      omega
    · rw [if_neg hb]
      exact Int.ceil_le_ceil h

/-- Queue priority assigned to a sitemap candidate with the given score:
max(0, min(9, int(10 - score))) in the source. -/
def prio_of_score (score : ℚ) : ℕ := (max 0 (min 9 (py_int (10 - score)))).toNat

theorem prio_of_score_le_9 (s : ℚ) : prio_of_score s ≤ 9 := by
  unfold prio_of_score
  have h1 : max 0 (min 9 (py_int (10 - s))) ≤ (9 : ℤ) := by
    apply max_le
    · omega
    · exact min_le_left _ _
  omega

theorem prio_of_score_antitone {s1 s2 : ℚ} (h : s2 ≤ s1) :
    prio_of_score s1 ≤ prio_of_score s2 := by
  unfold prio_of_score
  have h1 : py_int (10 - s1) ≤ py_int (10 - s2) := py_int_mono (by linarith)
  have h2 : max 0 (min 9 (py_int (10 - s1))) ≤ max 0 (min 9 (py_int (10 - s2))) := by
    apply max_le_max (le_refl 0)
    exact min_le_min (le_refl 9) h1
  omega

/-! ### sitemap_index.py: the domain URL index -/

/-- Embeds the IndexedUrl TypedDict of sitemap_index.py.  The Python code
stores keywords as list(set); the set itself is modelled. -/
structure IndexedUrl where
  url : String
  path_segments : List String
  title_hint : String
  keywords : Finset String
  depth : ℕ
  priority : ℚ
  changefreq : Option String
deriving DecidableEq

/-- Embeds the DomainIndex TypedDict of sitemap_index.py. -/
structure DomainIndexL where
  domain : String
  indexed_at : String
  sitemap_url : Option String
  source_type : String
  urls : List IndexedUrl
  url_count : ℕ
deriving DecidableEq

/-- Embeds the UrlMatch dataclass of sitemap_index.py.  The joined word lists
inside the Python reason strings iterate a set in unspecified order, so the
reasons are modelled by their category tags. -/
structure UrlMatch where
  url : String
  title_hint : String
  score : ℚ
  match_reasons : List String
deriving DecidableEq

/-- The stop set of SitemapIndex._extract_keywords. -/
def stop_set : List String :=
  ["html", "htm", "php", "asp", "www", "com", "org", "index"]

/-- Keywords taken from the URL path in SitemapIndex._extract_keywords: path
parts are split on dash, underscore and dot after lowercasing, and tokens of
length at most 2 or in the stop set are discarded. -/
def path_keywords (url : String) : Finset String :=
  ((split_chars ['/'] (path_of url)).filter (fun p => ¬ p = "")).foldl
    (fun acc part =>
      acc ∪ ((split_chars ['-', '_', '.'] (py_lower part)).filter
        (fun w => 2 < w.length ∧ ¬ w ∈ stop_set)).toFinset) ∅

/-- Keywords taken from the title hint in SitemapIndex._extract_keywords:
split on whitespace, dash, underscore, pipe, slash, backslash and colon after
lowercasing; only the length filter is applied. -/
def title_keywords (title_hint : String) : Finset String :=
  if title_hint = "" then ∅
  else ((split_chars (space_chars ++ ['-', '_', '|', '/', '\\', ':'])
    (py_lower title_hint)).filter (fun w => 2 < w.length)).toFinset

/-- Embeds SitemapIndex._extract_keywords. -/
def extract_keywords (url title_hint : String) : Finset String :=
  path_keywords url ∪ title_keywords title_hint

/-- Strip one trailing file extension among html, htm, php, asp, aspx, jsp,
case-insensitively, as the regex of _extract_path_segments does. -/
def strip_ext (seg : String) : String :=
  let ls := py_lower seg
  if ends_with ".html" ls then drop_right 5 seg
  else if ends_with ".aspx" ls then drop_right 5 seg
  else if ends_with ".htm" ls then drop_right 4 seg
  else if ends_with ".php" ls then drop_right 4 seg
  else if ends_with ".asp" ls then drop_right 4 seg
  else if ends_with ".jsp" ls then drop_right 4 seg
  else seg

/-- Embeds SitemapIndex._extract_path_segments. -/
def extract_path_segments (url : String) : List String :=
  ((split_chars ['/'] (path_of url)).filter (fun s => ¬ s = "")).filterMap
    (fun seg =>
      let seg2 := strip_ext seg
      if ¬ seg2 = "" ∧ ¬ py_lower seg2 ∈ (["index", "default"] : List String)
      then some seg2 else none)

/-- Query tokenization of SitemapIndex.find_relevant_urls: split the lowered
query on whitespace, dash, underscore, slash, backslash and colon and keep
tokens longer than 2 characters, as a set. -/
def tokenize_query (query : String) : Finset String :=
  ((split_chars (space_chars ++ ['-', '_', '/', '\\', ':']) (py_lower query)).filter
    (fun w => 2 < w.length)).toFinset

/-- The path word set built inside find_relevant_urls from the stored path
segments (split on dash and underscore after lowercasing). -/
def path_words (segs : List String) : Finset String :=
  segs.foldl (fun acc seg => acc ∪ (split_chars ['-', '_'] (py_lower seg)).toFinset) ∅

/-- The title word set built inside find_relevant_urls from the title hint. -/
def title_words (title_hint : String) : Finset String :=
  (split_chars (space_chars ++ ['-', '_']) (py_lower title_hint)).toFinset

/-- The shallow-page preference factor max(0.5, 1.0 - depth * 0.1). -/
def depth_penalty (depth : ℕ) : ℚ := max (1/2) (1 - (depth : ℚ) * (1/10))

/-- The keyword score a query token set gives one indexed URL in
find_relevant_urls: weighted intersection counts, multiplied by the sitemap
priority boost and the depth penalty. -/
def score_url (u : IndexedUrl) (q : Finset String) : ℚ :=
  (((q ∩ u.keywords).card : ℚ) * 2
    + ((q ∩ path_words u.path_segments).card : ℚ) * (3/2)
    + ((q ∩ title_words u.title_hint).card : ℚ) * (5/2))
  * (1/2 + u.priority) * depth_penalty u.depth

/-- Stable insertion into a list of URL matches sorted by descending score;
an element is placed before the first strictly smaller score, so equal scores
keep their original order, as the stable Python list.sort with reverse=True. -/
def insort_match (x : UrlMatch) : List UrlMatch → List UrlMatch
  | [] => [x]
  | y :: ys => if y.score ≤ x.score then x :: y :: ys else y :: insort_match x ys

/-- Stable descending sort of URL matches by score. -/
def sort_matches : List UrlMatch → List UrlMatch
  | [] => []
  | x :: xs => insort_match x (sort_matches xs)

/-- Embeds SitemapIndex.find_relevant_urls for an index that is present for
the requested domain. -/
def find_relevant_urls (idx : DomainIndexL) (query : String) (max_results : ℕ) :
    List UrlMatch :=
  let q := tokenize_query query
  let ms := idx.urls.filterMap (fun u =>
    let s := score_url u q
    if 0 < s then
      some ⟨u.url, u.title_hint, s,
        (if 0 < (q ∩ u.keywords).card then ["keywords"] else [])
          ++ (if 0 < (q ∩ path_words u.path_segments).card then ["path"] else [])
          ++ (if 0 < (q ∩ title_words u.title_hint).card then ["title"] else [])⟩
    else none)
  (sort_matches ms).take max_results

/-- One url element of a sitemap document, after XML parsing: the stripped
loc text when present and nonempty, the float-parsed priority when present and
parsable, and the stripped changefreq text.  XML and float parsing are
modelled as already performed. -/
structure SitemapEntry where
  loc : Option String
  priority : Option ℚ
  changefreq : Option String
deriving DecidableEq

/-- The IndexedUrl a sitemap entry with location url and priority p produces. -/
def sitemap_indexed_url (url : String) (p : ℚ) (cf : Option String) : IndexedUrl :=
  let segs := extract_path_segments url
  let th := py_title (dash_to_space (match segs.getLast? with
    | some s => s
    | none => ""))
  ⟨url, segs, th, extract_keywords url th, segs.length, p, cf⟩

/-- Embeds the accumulation loop of SitemapIndex._parse_sitemap: entries
without a location are skipped, and the loop breaks once the accumulated list
has reached max_urls (checked after each append). -/
def parse_sitemap_aux (maxUrls : ℕ) : List SitemapEntry → List IndexedUrl → List IndexedUrl
  | [], acc => acc
  | e :: es, acc =>
    match e.loc with
    | none => parse_sitemap_aux maxUrls es acc
    | some url =>
      let acc2 := acc ++ [sitemap_indexed_url url
        (match e.priority with
          | some p => p
          | none => 1/2) e.changefreq]
      if maxUrls ≤ acc2.length then acc2 else parse_sitemap_aux maxUrls es acc2

/-- Embeds SitemapIndex._parse_sitemap on a parsed entry list. -/
def parse_sitemap (maxUrls : ℕ) (entries : List SitemapEntry) : List IndexedUrl :=
  parse_sitemap_aux maxUrls entries []

/-- The batch-collection inner loop of SitemapIndex._crawl_urls: pop queue
entries until the batch is full, marking each admissible entry (unvisited and
within the depth bound) as visited and adding it to the batch.  Returns the
batch, the remaining queue and the updated visited list. -/
def take_batch (crawlDepth parallel : ℕ) :
    List (String × ℕ × String) → List String → List (String × ℕ × String) →
      List (String × ℕ × String) × List (String × ℕ × String) × List String
  | [], vis, batch => (batch, [], vis)
  | (u, d, t) :: rest, vis, batch =>
    if parallel ≤ batch.length then (batch, (u, d, t) :: rest, vis)
    else if ¬ u ∈ vis ∧ d ≤ crawlDepth then
      take_batch crawlDepth parallel rest (vis ++ [u]) (batch ++ [(u, d, t)])
    else take_batch crawlDepth parallel rest vis batch

/-- Processing of one fetched batch in _crawl_urls.  The fetch_links oracle
models SitemapIndex._fetch_links (network access, regex link extraction and
same-domain filtering); a none result models a raised exception collected by
asyncio.gather.  Returns the indexed URLs appended and the queue entries for
the discovered links, in batch order. -/
def process_batch (fetch_links : String → Option (String × List (String × String)))
    (vis : List String) :
    List (String × ℕ × String) → List IndexedUrl × List (String × ℕ × String)
  | [] => ([], [])
  | (u, d, t) :: rest =>
    let tail := process_batch fetch_links vis rest
    match fetch_links u with
    | none => tail
    | some ft =>
      let final_title := if ¬ ft.1 = "" then ft.1 else t
      (⟨u, extract_path_segments u, final_title, extract_keywords u final_title,
          d, max (1/10) (1 - (d : ℚ) * (1/5)), none⟩ :: tail.1,
        ((ft.2.filter (fun lt => ¬ lt.1 ∈ vis)).map
          (fun lt => (lt.1, d + 1, lt.2))) ++ tail.2)

/-- Embeds the outer while loop of SitemapIndex._crawl_urls as a fuelled
state transformer (each fuel unit is one batch round). -/
def crawl_loop (maxUrls crawlDepth parallel : ℕ)
    (fetch_links : String → Option (String × List (String × String))) :
    ℕ → List (String × ℕ × String) → List String → List IndexedUrl → List IndexedUrl
  | 0, _, _, urls => urls
  | fuel + 1, to_visit, vis, urls =>
    if to_visit = [] ∨ maxUrls ≤ urls.length then urls
    else
      let b := take_batch crawlDepth parallel to_visit vis []
      if b.1 = [] then urls
      else
        let pr := process_batch fetch_links b.2.2 b.1
        crawl_loop maxUrls crawlDepth parallel fetch_links fuel
          (b.2.1 ++ pr.2) b.2.2 (urls ++ pr.1)

/-- Embeds SitemapIndex._crawl_urls from a start URL. -/
def crawl_urls (maxUrls crawlDepth parallel : ℕ)
    (fetch_links : String → Option (String × List (String × String)))
    (start_url : String) (fuel : ℕ) : List IndexedUrl :=
  crawl_loop maxUrls crawlDepth parallel fetch_links fuel [(start_url, 0, "")] [] []

/-- Embeds the index-building path of SitemapIndex.ensure_indexed for a stale
or absent domain.  The sitemap_fetch oracle models _fetch_sitemap: none when
no sitemap URL answered, otherwise the parsed entry list of the first
successful response.  An empty parse result falls back to crawling, as the
Python `if not urls` check does. -/
def ensure_indexed (maxUrls crawlDepth parallel : ℕ) (domain now : String)
    (sitemap_fetch : Option (List SitemapEntry))
    (fetch_links : String → Option (String × List (String × String)))
    (start_url : Option String) (fuel : ℕ) : DomainIndexL :=
  let sm := match sitemap_fetch with
    | some entries => parse_sitemap maxUrls entries
    | none => []
  if ¬ sm = [] then
    ⟨domain, now, some ("https://" ++ domain ++ "/sitemap.xml"), "sitemap",
      sm, sm.length⟩
  else
    let start := match start_url with
      | some u => u
      | none => "https://" ++ domain ++ "/"
    let cs := crawl_urls maxUrls crawlDepth parallel fetch_links start fuel
    ⟨domain, now, none, "crawl", cs, cs.length⟩

/-! ### cache.py: the page cache -/

/-- A link dictionary with url and text keys, as the fetchers produce and the
cache stores. -/
structure Link where
  url : String
  text : String
deriving DecidableEq

/-- Embeds the CachedPage TypedDict of cache.py. -/
structure CachedPage where
  url : String
  title : String
  summary : String
  content : String
  links : List Link
  fetched_at : String
  domain : String
deriving DecidableEq

/-- Assignment into the cache dictionary: overwrite the entry at an existing
key in place, otherwise append, as a Python dict assignment does. -/
def put_entry : List (String × CachedPage) → String → CachedPage →
    List (String × CachedPage)
  | [], k, p => [(k, p)]
  | (k2, p2) :: rest, k, p =>
    if k2 = k then (k, p) :: rest else (k2, p2) :: put_entry rest k p

/-- Embeds PageCache.get: look the key derived from the URL up in the store.
The key derivation (a SHA-256 prefix in the source) is an oracle parameter. -/
def cache_get (keyOf : String → String) (c : List (String × CachedPage))
    (url : String) : Option CachedPage :=
  List.lookup (keyOf url) c

/-- Embeds PageCache.put (the fetched_at timestamp is the now argument). -/
def cache_put (keyOf : String → String) (c : List (String × CachedPage))
    (url title summary content : String) (links : List Link)
    (domain now : String) : List (String × CachedPage) :=
  put_entry c (keyOf url) ⟨url, title, summary, content, links, now, domain⟩

/-- Embeds PageCache.clear: with a domain, remove exactly the pages stored
under that domain and report how many; with none, empty the cache and report
the previous size.  Returns (count, new store). -/
def cache_clear (c : List (String × CachedPage)) (domain : Option String) :
    ℕ × List (String × CachedPage) :=
  match domain with
  | none => (c.length, [])
  | some d =>
    ((c.filter (fun kv => kv.2.domain = d)).length,
      c.filter (fun kv => ¬ kv.2.domain = d))

/-! ### fetchers/web.py: link extraction -/

/-- Split a character list at the first occurrence of a character: the part
before it (which does not contain it) and the part after it. -/
def split_at_char (c : Char) : List Char → Option (List Char × List Char)
  | [] => none
  | x :: xs =>
    if x = c then some ([], xs)
    else match split_at_char c xs with
      | none => none
      | some bi => some (x :: bi.1, bi.2)

/-- Try to complete a markdown link match just after an opening bracket:
nonempty text up to the closing bracket, an opening parenthesis, nonempty
href up to the closing parenthesis.  Mirrors how the regex of
_extract_markdown_links can match at a given start position. -/
def md_try_match (cs : List Char) : Option (String × String × List Char) :=
  match split_at_char ']' cs with
  | none => none
  | some ti =>
    if ti.1 = [] then none
    else match ti.2 with
      | '(' :: rest2 =>
        match split_at_char ')' rest2 with
        | none => none
        | some hr =>
          if hr.1 = [] then none else some (String.mk ti.1, String.mk hr.1, hr.2)
      | _ => none

/-- Left-to-right non-overlapping scan for markdown links, as re.findall
performs it.  The fuel is the length of the remaining text; every step
consumes at least one character, so the initial length is always enough. -/
def md_scan : ℕ → List Char → List (String × String)
  | 0, _ => []
  | _, [] => []
  | fuel + 1, c :: rest =>
    if c = '[' then
      match md_try_match rest with
      | some thr => (thr.1, thr.2.1) :: md_scan fuel thr.2.2
      | none => md_scan fuel rest
    else md_scan fuel rest

/-- The (text, href) pairs the markdown link regex finds in the content. -/
def find_markdown_links (content : String) : List (String × String) :=
  md_scan content.data.length content.data

/-- The image extension list of _extract_markdown_links. -/
def image_exts : List String := [".png", ".jpg", ".gif", ".svg", ".ico"]

/-- The href filter of _extract_markdown_links: skip anchors, mailto links
and hrefs ending in an image extension (checked on the lowered href). -/
def md_href_skip (href : String) : Bool :=
  str_starts "#" href || str_starts "mailto:" href ||
    image_exts.any (fun e => ends_with e (py_lower href))

/-- The href filter of _extract_html_links: skip anchors, mailto links and
javascript links. -/
def html_href_skip (href : String) : Bool :=
  str_starts "#" href || str_starts "mailto:" href || str_starts "javascript:" href

/-- The domain filter shared by both extractors: drop a resolved URL whose
netloc is nonempty and does not contain the base domain as a substring. -/
def domain_reject (base_domain : Option String) (full : String) : Bool :=
  match base_domain with
  | none => false
  | some d => (¬ netloc_of full = "" : Bool) && ¬ is_sub d.data (netloc_of full).data

/-- The filtering, resolving and deduplicating loop of
_extract_markdown_links over the regex matches. -/
def md_build (base : String) (bd : Option String) :
    List (String × String) → List String → List Link
  | [], _ => []
  | th :: rest, seen =>
    if md_href_skip th.2 then md_build base bd rest seen
    else
      let full := py_urljoin base th.2
      if domain_reject bd full then md_build base bd rest seen
      else if full ∈ seen then md_build base bd rest seen
      else ⟨full, py_strip th.1⟩ :: md_build base bd rest (full :: seen)

/-- Embeds WebFetcher._extract_markdown_links. -/
def extract_markdown_links (content base_url : String) (base_domain : Option String) :
    List Link :=
  md_build base_url base_domain (find_markdown_links content) []

/-- The filtering, resolving and deduplicating loop of _extract_html_links
over the anchor tags.  The anchors argument models the (href, stripped text)
pairs BeautifulSoup finds; a URL is recorded as seen before the nonempty-text
check, exactly as in the source. -/
def html_build (base : String) (bd : Option String) :
    List (String × String) → List String → List Link
  | [], _ => []
  | ht :: rest, seen =>
    if html_href_skip ht.1 then html_build base bd rest seen
    else
      let full := py_urljoin base ht.1
      if domain_reject bd full then html_build base bd rest seen
      else if full ∈ seen then html_build base bd rest seen
      else if ¬ ht.2 = "" then ⟨full, ht.2⟩ :: html_build base bd rest (full :: seen)
      else html_build base bd rest (full :: seen)

/-- Embeds WebFetcher._extract_html_links. -/
def extract_html_links (anchors : List (String × String)) (base_url : String)
    (base_domain : Option String) : List Link :=
  html_build base_url base_domain anchors []

/-! ### agents/doc_search.py: the deep-research loop -/

/-- Embeds the FetchResult dataclass of fetchers/web.py. -/
structure FetchResult where
  url : String
  content : String
  title : String
  links : List Link
deriving DecidableEq

/-- One suggested link of a navigation decision. -/
structure NavLink where
  url : String
  reason : String
deriving DecidableEq

/-- The navigation decision _analyze_page returns, after JSON parsing or the
safe default on failure; the nav oracle below already delivers this
post-fallback value. -/
structure NavDecision where
  has_sufficient_info : Bool
  relevant_content : String
  summary : String
  links_to_explore : List NavLink
deriving DecidableEq

/-- The fixed per-query environment of DocSearchAgent._deep_search: limits,
allowed domains, the cache key derivation, the timestamp used for cache
writes, the fetch oracle (none models a raised exception) and the navigation
oracle (the post-fallback decision of _analyze_page). -/
structure SearchEnv where
  maxPages : ℕ
  maxContentLength : ℕ
  domains : List String
  keyOf : String → String
  now : String
  fetch : String → Option FetchResult
  nav : FetchResult → NavDecision

/-- The mutable exploration state of one _deep_search invocation.  visited
doubles as the visit order (the set of the list is the Python visited set);
fetched is a ghost trace of the URLs passed to web_fetcher.fetch_with_links. -/
structure ExploreState where
  to_explore : List (String × ℕ)
  visited : List String
  pages_explored : ℕ
  has_sufficient : Bool
  collected : List (String × String)
  sources : List String
  cache : List (String × CachedPage)
  fetched : List String

/-- Stable insertion into a queue sorted by ascending priority: an element
goes before the first strictly larger priority, so equal priorities keep
insertion order — the behavior of the stable Python list.sort keyed on the
priority. -/
def insort_q (x : String × ℕ) : List (String × ℕ) → List (String × ℕ)
  | [] => [x]
  | y :: ys => if x.2 ≤ y.2 then x :: y :: ys else y :: insort_q x ys

/-- Stable ascending sort of the frontier by priority. -/
def sort_queue : List (String × ℕ) → List (String × ℕ)
  | [] => []
  | x :: xs => insort_q x (sort_queue xs)

/-- The bookkeeping _deep_search performs after the navigation decision of a
visited page: cache write for newly fetched nonempty content, excerpt and
source collection, the sufficiency flag, and enqueueing of the recommended
links at priority pages_explored * 10 + position. -/
def nav_update (env : SearchEnv) (current_url : String) (cached : Bool)
    (fr : FetchResult) (s : ExploreState) : ExploreState :=
  let d := env.nav fr
  let dom := match env.domains with
    | dm :: _ => dm
    | [] => netloc_of current_url
  let c3 := cache_put env.keyOf s.cache fr.url fr.title d.summary fr.content fr.links dom env.now
  let s3 := if cached = false ∧ ¬ fr.content = "" then { s with cache := c3 } else s
  let col4 := s3.collected ++ [(current_url, d.relevant_content)]
  let src4 := s3.sources ++ [current_url]
  let s4 := if ¬ d.relevant_content = "" then { s3 with collected := col4, sources := src4 } else s3
  let newq := s4.to_explore ++
    ((d.links_to_explore.enum.filter
      (fun il => ¬ il.2.url = "" ∧ ¬ il.2.url ∈ s4.visited)).map
      (fun il => (il.2.url, s4.pages_explored * 10 + il.1)))
  if d.has_sufficient_info then { s4 with has_sufficient := true }
  else { s4 with to_explore := newq }

/-- One visit of an unvisited popped URL: mark visited, consume budget, use
the cache when it hits, otherwise call the fetcher (recorded in the ghost
fetched trace); a fetch exception skips the page. -/
def visit_update (env : SearchEnv) (url : String) (rest : List (String × ℕ))
    (s : ExploreState) : ExploreState :=
  let vis1 := s.visited ++ [url]
  let s1 : ExploreState :=
    { s with to_explore := rest, visited := vis1, pages_explored := s.pages_explored + 1 }
  match cache_get env.keyOf s1.cache url with
  | some cp => nav_update env url true ⟨cp.url, cp.content, cp.title, cp.links⟩ s1
  | none =>
    let s2 := { s1 with fetched := s1.fetched ++ [url] }
    match env.fetch url with
    | none => s2
    | some fr => nav_update env url false fr s2

/-- Embeds the exploration while loop of _deep_search as a fuelled state
transformer.  Each fuel unit is one loop iteration; the loop body sorts the
frontier, pops its head, skips it when already visited, and otherwise visits
it.  Running with enough fuel reproduces the terminating Python loop, and the
safety theorems below hold for every fuel. -/
def explore_loop (env : SearchEnv) : ℕ → ExploreState → ExploreState
  | 0, s => s
  | fuel + 1, s =>
    if s.to_explore = [] ∨ env.maxPages ≤ s.pages_explored ∨ s.has_sufficient = true
    then s
    else match sort_queue s.to_explore with
      | [] => s
      | (url, _) :: rest =>
        if url ∈ s.visited then explore_loop env fuel { s with to_explore := rest }
        else explore_loop env fuel (visit_update env url rest s)

/-- The cache prefetch of _deep_search: for each domain the top three
find_similar results contribute a truncated excerpt, a visited mark and a
cached source tag.  The similar argument models the per-domain find_similar
outputs. -/
def prime_from_cache (similar : List (List CachedPage)) :
    List String × List (String × String) × List String :=
  similar.foldl
    (fun acc pages =>
      (pages.take 3).foldl
        (fun acc2 p =>
          if p.url ∈ acc2.1 then acc2
          else (acc2.1 ++ [p.url], acc2.2.1 ++ [(p.url, py_take 5000 p.content)],
            acc2.2.2 ++ ["[cached] " ++ p.url]))
        acc)
    ([], [], [])

/-- The frontier priming of _deep_search: sitemap candidates at the score
priority with a sitemap-match source tag, then the seed URLs at priority 10,
each skipped when already visited.  Returns the frontier and the source tags. -/
def prime_queue (visited : List String) (cands : List (String × ℚ))
    (seeds : List String) : List (String × ℕ) × List String :=
  let st := cands.foldl
    (fun (acc : List (String × ℕ) × List String) us =>
      if us.1 ∈ visited then acc
      else (acc.1 ++ [(us.1, prio_of_score us.2)],
        acc.2 ++ ["[sitemap-match] " ++ us.1]))
    ([], [])
  (st.1 ++ (seeds.filter (fun u => ¬ u ∈ visited)).map (fun u => (u, 10)), st.2)

/-- The exploration phase of _deep_search: prime the state from the cache
prefetch, the sitemap candidates and the seed URLs, then run the loop. -/
def run_exploration (env : SearchEnv) (cache0 : List (String × CachedPage))
    (similar : List (List CachedPage)) (cands : List (String × ℚ))
    (seeds : List String) (fuel : ℕ) : ExploreState :=
  let pc := prime_from_cache similar
  let q := prime_queue pc.1 cands seeds
  explore_loop env fuel
    { to_explore := q.1, visited := pc.1, pages_explored := 0,
      has_sufficient := false, collected := pc.2.1, sources := pc.2.2 ++ q.2,
      cache := cache0, fetched := [] }

/-- The terminal synthesis LLM call can raise; this is its exception type. -/
inductive SynthError where
  | llm_raised
deriving DecidableEq

/-- The successful result dictionary of _deep_search. -/
structure SearchResult where
  content : String
  sources : List String
  pages_explored : ℕ
  sitemap_used : Bool
  sitemap_candidates : ℕ
deriving DecidableEq

/-- Embeds DocSearchAgent._deep_search.  The synth oracle models
_synthesize_answer (whose LLM call is not guarded by the source); local
content models _fetch_local_sources, whose own errors are swallowed.  The
result is an Except because an exception of the synthesis call propagates. -/
def deep_search (env : SearchEnv) (cache0 : List (String × CachedPage))
    (similar : List (List CachedPage)) (cands : List (String × ℚ))
    (seeds : List String) (local_content : String)
    (synth : List (String × String) → Except SynthError String)
    (fuel : ℕ) : Except SynthError SearchResult :=
  let st := run_exploration env cache0 similar cands seeds fuel
  let collected := st.collected ++
    (if ¬ local_content = "" then [("[local]", local_content)] else [])
  let sources := st.sources ++
    (if ¬ local_content = "" then ["[local sources]"] else [])
  let used := decide (0 < cands.length)
  if collected = [] then
    Except.ok ⟨"No relevant documentation found.", sources, st.pages_explored,
      used, cands.length⟩
  else
    match synth collected with
    | Except.error e => Except.error e
    | Except.ok txt =>
      let content := if env.maxContentLength < txt.length then
          py_take env.maxContentLength txt ++ "\n\n[Content truncated...]"
        else txt
      Except.ok ⟨content, sources, st.pages_explored, used, cands.length⟩

/-- Stable insertion into a candidate list sorted by descending score. -/
def insort_cand (x : String × ℚ) : List (String × ℚ) → List (String × ℚ)
  | [] => [x]
  | y :: ys => if y.2 ≤ x.2 then x :: y :: ys else y :: insort_cand x ys

/-- Stable descending sort of (url, score) candidates. -/
def sort_cands : List (String × ℚ) → List (String × ℚ)
  | [] => []
  | x :: xs => insort_cand x (sort_cands xs)

/-- Embeds DocSearchAgent._get_sitemap_candidates for one web source whose
domain index was built (a none idx models a raised ensure_indexed, which the
source swallows by skipping the source).  Matches below min_match_score are
discarded; the result is sorted by descending score and capped. -/
def get_sitemap_candidates (enabled : Bool) (min_match_score : ℚ)
    (max_url_candidates : ℕ) (idx : Option DomainIndexL) (query : String) :
    List (String × ℚ) :=
  if enabled = false then []
  else match idx with
    | none => []
    | some d =>
      let ms := find_relevant_urls d query max_url_candidates
      (sort_cands ((ms.filter (fun m => min_match_score ≤ m.score)).map
        (fun m => (m.url, m.score)))).take max_url_candidates

/-- The candidate-priming plus deep-search composition of search for one web
source: the index may have been built from a sitemap or from a crawl; nothing
downstream inspects its source_type. -/
def search_with_index (env : SearchEnv) (cache0 : List (String × CachedPage))
    (similar : List (List CachedPage)) (enabled : Bool) (min_match_score : ℚ)
    (max_url_candidates : ℕ) (idx : Option DomainIndexL) (query : String)
    (seeds : List String) (local_content : String)
    (synth : List (String × String) → Except SynthError String)
    (fuel : ℕ) : Except SynthError SearchResult :=
  deep_search env cache0 similar
    (get_sitemap_candidates enabled min_match_score max_url_candidates idx query)
    seeds local_content synth fuel

/-! ### Cache laws -/

theorem lookup_put_entry (c : List (String × CachedPage)) (k : String) (p : CachedPage) :
    List.lookup k (put_entry c k p) = some p := by
  induction c with
  | nil =>
    simp [put_entry, List.lookup]
  | cons kv rest ih =>
    by_cases h : kv.1 = k
    · simp [put_entry, h, List.lookup]
    · have hb : (k == kv.1) = false := beq_eq_false_iff_ne.mpr (fun he => h he.symm)
      simp only [put_entry, if_neg h, List.lookup, hb]
      exact ih

theorem put_entry_absorb (c : List (String × CachedPage)) (k : String)
    (p1 p2 : CachedPage) :
    put_entry (put_entry c k p1) k p2 = put_entry c k p2 := by
  induction c with
  | nil =>
    simp [put_entry]
  | cons kv rest ih =>
    by_cases h : kv.1 = k
    · simp [put_entry, h]
    · simp [put_entry, h, ih]

/-- C8: storing a page and reading the same URL back returns exactly the
stored page (same url, title, summary, content, links and domain, with the
fetched_at timestamp of the put), and repeating the identical put leaves the
cache unchanged. -/
theorem cache_put_get_roundtrip_and_idem (keyOf : String → String)
    (c : List (String × CachedPage)) (url title summary content : String)
    (links : List Link) (domain now : String) :
    cache_get keyOf (cache_put keyOf c url title summary content links domain now) url
        = some ⟨url, title, summary, content, links, now, domain⟩
      ∧ cache_put keyOf (cache_put keyOf c url title summary content links domain now)
          url title summary content links domain now
        = cache_put keyOf c url title summary content links domain now := by
  constructor
  · exact lookup_put_entry c (keyOf url) _
  · exact put_entry_absorb c (keyOf url) _ _

theorem length_filter_partition (c : List (String × CachedPage))
    (p : String × CachedPage → Bool) :
    (c.filter p).length + (c.filter (fun kv => !(p kv))).length = c.length := by
  induction c with
  | nil =>
    simp
  | cons kv rest ih =>
    by_cases h : p kv
    · simp only [List.filter, h, cond_true, Bool.not_true, cond_false, List.length_cons]
      omega
    · simp only [List.filter, h, cond_false, Bool.not_false, cond_true, List.length_cons]
      omega

/-- C10: clearing a domain keeps exactly the pages stored under other
domains (in order), the returned count plus the kept pages account for the
whole cache, and clearing with none empties the cache returning its size. -/
theorem cache_clear_spec (c : List (String × CachedPage)) (d : String) :
    (∀ kv, kv ∈ (cache_clear c (some d)).2 ↔ kv ∈ c ∧ ¬ kv.2.domain = d)
      ∧ (cache_clear c (some d)).1 + (cache_clear c (some d)).2.length = c.length
      ∧ (cache_clear c none).1 = c.length ∧ (cache_clear c none).2 = [] := by
  refine ⟨?_, ?_, rfl, rfl⟩
  · intro kv
    simp [cache_clear, List.mem_filter]
  · have h := length_filter_partition c (fun kv => kv.2.domain = d)
    simpa [cache_clear, decide_not] using h

/-! ### Scoring monotonicity -/

/-- C5: the candidate score of find_relevant_urls is monotone in the query
token set: enlarging the token set cannot lower the score of any indexed URL
whose priority is nonnegative (the data model keeps priority in the unit
interval). -/
theorem score_url_monotone (u : IndexedUrl) (q q2 : Finset String)
    (hq : q ⊆ q2) (hp : 0 ≤ u.priority) : score_url u q ≤ score_url u q2 := by
  unfold score_url
  have hboost : (0 : ℚ) ≤ 1/2 + u.priority := by linarith
  have hdepth : (0 : ℚ) ≤ depth_penalty u.depth := by
    unfold depth_penalty
    have h12 : (0 : ℚ) ≤ 1/2 := by norm_num
    exact le_trans h12 (le_max_left _ _)
  apply mul_le_mul_of_nonneg_right _ hdepth
  apply mul_le_mul_of_nonneg_right _ hboost
  have h1 : (q ∩ u.keywords).card ≤ (q2 ∩ u.keywords).card :=
    Finset.card_le_card (Finset.inter_subset_inter hq (le_refl _))
  have h2 : (q ∩ path_words u.path_segments).card ≤ (q2 ∩ path_words u.path_segments).card :=
    Finset.card_le_card (Finset.inter_subset_inter hq (le_refl _))
  have h3 : (q ∩ title_words u.title_hint).card ≤ (q2 ∩ title_words u.title_hint).card :=
    Finset.card_le_card (Finset.inter_subset_inter hq (le_refl _))
  have h1q : ((q ∩ u.keywords).card : ℚ) ≤ ((q2 ∩ u.keywords).card : ℚ) := by
    exact_mod_cast h1
  have h2q : ((q ∩ path_words u.path_segments).card : ℚ)
      ≤ ((q2 ∩ path_words u.path_segments).card : ℚ) := by
    exact_mod_cast h2
  have h3q : ((q ∩ title_words u.title_hint).card : ℚ)
      ≤ ((q2 ∩ title_words u.title_hint).card : ℚ) := by
    exact_mod_cast h3
  nlinarith

/-- An indexed URL used to instantiate the scoring monotonicity theorem. -/
def sample_indexed_url : IndexedUrl :=
  ⟨"https://docs.example.com/auth/token", ["auth", "token"], "Token",
    {"auth", "token"}, 2, 1/2, none⟩

/-- Witness for C5 at a concrete token-set inclusion. -/
theorem score_url_monotone_witness :
    ({"auth"} : Finset String) ⊆ {"auth", "token"}
      ∧ score_url sample_indexed_url {"auth"}
        ≤ score_url sample_indexed_url {"auth", "token"} :=
  ⟨by decide, score_url_monotone sample_indexed_url {"auth"} {"auth", "token"}
    (by decide) (by norm_num [sample_indexed_url])⟩

/-! ### Keyword extraction -/

theorem mem_foldl_union {α β : Type} [DecidableEq β] (f : α → Finset β)
    (l : List α) (acc : Finset β) (x : β) :
    (x ∈ l.foldl (fun a i => a ∪ f i) acc) ↔ x ∈ acc ∨ ∃ i ∈ l, x ∈ f i := by
  induction l generalizing acc with
  | nil =>
    simp
  | cons hd tl ih =>
    simp only [List.foldl_cons, ih, Finset.mem_union, List.mem_cons]
    constructor
    · rintro (⟨h | h⟩ | ⟨i, hi, hx⟩)
      · exact Or.inl h
      · exact Or.inr ⟨hd, Or.inl rfl, h⟩
      · exact Or.inr ⟨i, Or.inr hi, hx⟩
    · rintro (h | ⟨i, hi | hi, hx⟩)
      · exact Or.inl (Or.inl h)
      · subst hi
        exact Or.inl (Or.inr hx)
      · exact Or.inr ⟨i, hi, hx⟩

theorem mem_path_keywords (url : String) (k : String) (hk : k ∈ path_keywords url) :
    2 < k.length ∧ ¬ k ∈ stop_set ∧ no_ascii_upper k := by
  unfold path_keywords at hk
  rw [mem_foldl_union] at hk
  rcases hk with h | ⟨part, _, hx⟩
  · simp at h
  · rw [List.mem_toFinset, List.mem_filter] at hx
    obtain ⟨hmem, hprop⟩ := hx
    have hp : 2 < k.length ∧ ¬ k ∈ stop_set := by
      simpa using hprop
    exact ⟨hp.1, hp.2, split_chars_no_upper _ part k hmem⟩

theorem mem_title_keywords (title_hint : String) (k : String)
    (hk : k ∈ title_keywords title_hint) : 2 < k.length ∧ no_ascii_upper k := by
  unfold title_keywords at hk
  by_cases h : title_hint = ""
  · rw [if_pos h] at hk
    simp at hk
  · rw [if_neg h] at hk
    rw [List.mem_toFinset, List.mem_filter] at hk
    obtain ⟨hmem, hprop⟩ := hk
    have hp : 2 < k.length := by
      simpa using hprop
    exact ⟨hp, split_chars_no_upper _ title_hint k hmem⟩

/-- C6 (amended): every keyword produced by _extract_keywords is a token of
length above 2 containing no ASCII uppercase letter (all tokens come from a
lowered string), and every keyword that originates from a path segment avoids
the stop set.  The stop-set exclusion does not apply to title-hint tokens,
which is what the counterexample below exhibits. -/
theorem extract_keywords_amended (url title_hint : String) :
    (∀ k ∈ extract_keywords url title_hint, 2 < k.length ∧ no_ascii_upper k)
      ∧ (∀ k ∈ path_keywords url, ¬ k ∈ stop_set) := by
  constructor
  · intro k hk
    unfold extract_keywords at hk
    rcases Finset.mem_union.mp hk with h | h
    · have hp := mem_path_keywords url k h
      exact ⟨hp.1, hp.2.2⟩
    · exact mem_title_keywords title_hint k h
  · intro k hk
    exact (mem_path_keywords url k hk).2.1

/-- Witness for C6 at a concrete URL: the path token docs passes the length
filter, the stop filter, and carries no uppercase letter. -/
theorem extract_keywords_amended_witness :
    2 < ("docs" : String).length ∧ no_ascii_upper "docs" ∧ ¬ "docs" ∈ stop_set :=
  ⟨((extract_keywords_amended "https://example.com/docs" "").1 "docs" (by decide)).1,
    ((extract_keywords_amended "https://example.com/docs" "").1 "docs" (by decide)).2,
    (extract_keywords_amended "https://example.com/docs" "").2 "docs" (by decide)⟩

/-- C6 counterexample: a stop word contained in the title hint survives into
the keyword set, because _extract_keywords only length-filters title tokens;
this refutes the claim that no keyword belongs to the stop set. -/
theorem extract_keywords_counterexample :
    "html" ∈ extract_keywords "https://example.com/docs" "Html Guide"
      ∧ "html" ∈ stop_set := by
  decide

/-! ### Link extraction -/

theorem md_build_fresh (base : String) (bd : Option String) :
    ∀ (ms : List (String × String)) (seen : List String),
      ((md_build base bd ms seen).map Link.url).Nodup
        ∧ ∀ u ∈ (md_build base bd ms seen).map Link.url, ¬ u ∈ seen := by
  intro ms
  induction ms with
  | nil =>
    intro seen
    simp [md_build]
  | cons th rest ih =>
    intro seen
    by_cases h1 : md_href_skip th.2 = true
    · simpa [md_build, h1] using ih seen
    · by_cases h2 : domain_reject bd (py_urljoin base th.2) = true
      · simpa [md_build, h1, h2] using ih seen
      · by_cases h3 : py_urljoin base th.2 ∈ seen
        · simpa [md_build, h1, h2, h3] using ih seen
        · have hih := ih (py_urljoin base th.2 :: seen)
          have heq : md_build base bd (th :: rest) seen
              = ⟨py_urljoin base th.2, py_strip th.1⟩
                :: md_build base bd rest (py_urljoin base th.2 :: seen) := by
            simp [md_build, h1, h2, h3]
          rw [heq]
          constructor
          · rw [List.map_cons, List.nodup_cons]
            refine ⟨?_, hih.1⟩
            intro hmem
            exact hih.2 _ hmem (List.mem_cons_self _ _)
          · intro u hu hus
            rcases List.mem_cons.mp hu with h | h
            · rw [h] at hus
              exact h3 hus
            · exact hih.2 u h (List.mem_cons_of_mem _ hus)

theorem md_build_provenance (base : String) (bd : Option String) :
    ∀ (ms : List (String × String)) (seen : List String)
      (l : Link), l ∈ md_build base bd ms seen →
      ∃ th ∈ ms, l.url = py_urljoin base th.2 ∧ md_href_skip th.2 = false
        ∧ l.text = py_strip th.1 := by
  intro ms
  induction ms with
  | nil =>
    intro seen l hl
    simp [md_build] at hl
  | cons th rest ih =>
    intro seen l hl
    by_cases h1 : md_href_skip th.2 = true
    · rw [show md_build base bd (th :: rest) seen = md_build base bd rest seen by
        simp [md_build, h1]] at hl
      obtain ⟨th2, hm, hp⟩ := ih seen l hl
      exact ⟨th2, List.mem_cons_of_mem _ hm, hp⟩
    · by_cases h2 : domain_reject bd (py_urljoin base th.2) = true
      · rw [show md_build base bd (th :: rest) seen = md_build base bd rest seen by
          simp [md_build, h1, h2]] at hl
        obtain ⟨th2, hm, hp⟩ := ih seen l hl
        exact ⟨th2, List.mem_cons_of_mem _ hm, hp⟩
      · by_cases h3 : py_urljoin base th.2 ∈ seen
        · rw [show md_build base bd (th :: rest) seen = md_build base bd rest seen by
            simp [md_build, h1, h2, h3]] at hl
          obtain ⟨th2, hm, hp⟩ := ih seen l hl
          exact ⟨th2, List.mem_cons_of_mem _ hm, hp⟩
        · rw [show md_build base bd (th :: rest) seen
              = ⟨py_urljoin base th.2, py_strip th.1⟩
                :: md_build base bd rest (py_urljoin base th.2 :: seen) by
            simp [md_build, h1, h2, h3]] at hl
          rcases List.mem_cons.mp hl with h | h
          · refine ⟨th, List.mem_cons_self _ _, ?_⟩
            rw [h]
            exact ⟨rfl, by simpa using h1, rfl⟩
          · obtain ⟨th2, hm, hp⟩ := ih _ l h
            exact ⟨th2, List.mem_cons_of_mem _ hm, hp⟩

theorem html_build_fresh (base : String) (bd : Option String) :
    ∀ (ms : List (String × String)) (seen : List String),
      ((html_build base bd ms seen).map Link.url).Nodup
        ∧ ∀ u ∈ (html_build base bd ms seen).map Link.url, ¬ u ∈ seen := by
  intro ms
  induction ms with
  | nil =>
    intro seen
    simp [html_build]
  | cons ht rest ih =>
    intro seen
    by_cases h1 : html_href_skip ht.1 = true
    · simpa [html_build, h1] using ih seen
    · by_cases h2 : domain_reject bd (py_urljoin base ht.1) = true
      · simpa [html_build, h1, h2] using ih seen
      · by_cases h3 : py_urljoin base ht.1 ∈ seen
        · simpa [html_build, h1, h2, h3] using ih seen
        · have hih := ih (py_urljoin base ht.1 :: seen)
          by_cases h4 : ht.2 = ""
          · have heq : html_build base bd (ht :: rest) seen
                = html_build base bd rest (py_urljoin base ht.1 :: seen) := by
              simp [html_build, h1, h2, h3, h4]
            rw [heq]
            refine ⟨hih.1, ?_⟩
            intro u hu hus
            exact hih.2 u hu (List.mem_cons_of_mem _ hus)
          · have heq : html_build base bd (ht :: rest) seen
                = ⟨py_urljoin base ht.1, ht.2⟩
                  :: html_build base bd rest (py_urljoin base ht.1 :: seen) := by
              simp [html_build, h1, h2, h3, h4]
            rw [heq]
            constructor
            · rw [List.map_cons, List.nodup_cons]
              refine ⟨?_, hih.1⟩
              intro hmem
              exact hih.2 _ hmem (List.mem_cons_self _ _)
            · intro u hu hus
              rcases List.mem_cons.mp hu with h | h
              · rw [h] at hus
                exact h3 hus
              · exact hih.2 u h (List.mem_cons_of_mem _ hus)

theorem html_build_provenance (base : String) (bd : Option String) :
    ∀ (ms : List (String × String)) (seen : List String)
      (l : Link), l ∈ html_build base bd ms seen →
      ∃ ht ∈ ms, l.url = py_urljoin base ht.1 ∧ html_href_skip ht.1 = false
        ∧ l.text = ht.2 ∧ ¬ ht.2 = "" := by
  intro ms
  induction ms with
  | nil =>
    intro seen l hl
    simp [html_build] at hl
  | cons ht rest ih =>
    intro seen l hl
    by_cases h1 : html_href_skip ht.1 = true
    · rw [show html_build base bd (ht :: rest) seen = html_build base bd rest seen by
        simp [html_build, h1]] at hl
      obtain ⟨ht2, hm, hp⟩ := ih seen l hl
      exact ⟨ht2, List.mem_cons_of_mem _ hm, hp⟩
    · by_cases h2 : domain_reject bd (py_urljoin base ht.1) = true
      · rw [show html_build base bd (ht :: rest) seen = html_build base bd rest seen by
          simp [html_build, h1, h2]] at hl
        obtain ⟨ht2, hm, hp⟩ := ih seen l hl
        exact ⟨ht2, List.mem_cons_of_mem _ hm, hp⟩
      · by_cases h3 : py_urljoin base ht.1 ∈ seen
        · rw [show html_build base bd (ht :: rest) seen = html_build base bd rest seen by
            simp [html_build, h1, h2, h3]] at hl
          obtain ⟨ht2, hm, hp⟩ := ih seen l hl
          exact ⟨ht2, List.mem_cons_of_mem _ hm, hp⟩
        · by_cases h4 : ht.2 = ""
          · rw [show html_build base bd (ht :: rest) seen
                = html_build base bd rest (py_urljoin base ht.1 :: seen) by
              simp [html_build, h1, h2, h3, h4]] at hl
            obtain ⟨ht2, hm, hp⟩ := ih _ l hl
            exact ⟨ht2, List.mem_cons_of_mem _ hm, hp⟩
          · rw [show html_build base bd (ht :: rest) seen
                = ⟨py_urljoin base ht.1, ht.2⟩
                  :: html_build base bd rest (py_urljoin base ht.1 :: seen) by
              simp [html_build, h1, h2, h3, h4]] at hl
            rcases List.mem_cons.mp hl with h | h
            · refine ⟨ht, List.mem_cons_self _ _, ?_⟩
              rw [h]
              exact ⟨rfl, by simpa using h1, rfl, h4⟩
            · obtain ⟨ht2, hm, hp⟩ := ih _ l h
              exact ⟨ht2, List.mem_cons_of_mem _ hm, hp⟩

/-- C7 (amended): in both fetch modes the extracted links are deduplicated on
the resolved URL and every emitted link is the urljoin of the page URL with a
surviving href.  The markdown extractor skips only anchors, mailto links and
the five image extensions png, jpg, gif, svg, ico; the HTML extractor skips
only anchors, mailto and javascript links and requires nonempty link text, and
applies no extension filter.  Neither mode filters tel: links or documents
such as pdf, zip, mp4, tar, gz — the counterexample below exhibits both. -/
theorem link_extraction_amended (content base_url : String) (bd : Option String)
    (anchors : List (String × String)) :
    ((extract_markdown_links content base_url bd).map Link.url).Nodup
      ∧ (∀ l ∈ extract_markdown_links content base_url bd,
          ∃ th ∈ find_markdown_links content,
            l.url = py_urljoin base_url th.2 ∧ md_href_skip th.2 = false
              ∧ l.text = py_strip th.1)
      ∧ ((extract_html_links anchors base_url bd).map Link.url).Nodup
      ∧ (∀ l ∈ extract_html_links anchors base_url bd,
          ∃ ht ∈ anchors,
            l.url = py_urljoin base_url ht.1 ∧ html_href_skip ht.1 = false
              ∧ l.text = ht.2 ∧ ¬ ht.2 = "") :=
  ⟨(md_build_fresh base_url bd (find_markdown_links content) []).1,
    fun l hl => md_build_provenance base_url bd (find_markdown_links content) [] l hl,
    (html_build_fresh base_url bd anchors []).1,
    fun l hl => html_build_provenance base_url bd anchors [] l hl⟩

/-- Witness for C7 at a concrete markdown page: the single extracted link is
the resolution of guide.html against the page directory. -/
theorem link_extraction_amended_witness :
    ∃ th ∈ find_markdown_links "See [Guide](guide.html) now.",
      (Link.mk "https://docs.example.com/start/guide.html" "Guide").url
          = py_urljoin "https://docs.example.com/start/" th.2
        ∧ md_href_skip th.2 = false
        ∧ (Link.mk "https://docs.example.com/start/guide.html" "Guide").text
          = py_strip th.1 :=
  (link_extraction_amended "See [Guide](guide.html) now."
      "https://docs.example.com/start/" none []).2.1
    ⟨"https://docs.example.com/start/guide.html", "Guide"⟩ (by decide)

/-- C7 counterexample: a tel: link and a pdf link survive markdown
extraction, and a pdf link survives HTML extraction, refuting the claimed
filtering of tel links and of the pdf extension in both modes. -/
theorem link_extraction_counterexample :
    (extract_markdown_links "[doc](tel:+15551234567) and [file](manual.pdf)"
        "https://docs.example.com/guide" none).map Link.url
      = ["tel:+15551234567", "https://docs.example.com/manual.pdf"]
      ∧ (extract_html_links [("deck.pdf", "Download")]
          "https://docs.example.com/guide" none).map Link.url
        = ["https://docs.example.com/deck.pdf"] := by
  decide

/-! ### Index size bounds -/

theorem parse_sitemap_aux_le (maxUrls : ℕ) :
    ∀ (es : List SitemapEntry) (acc : List IndexedUrl), acc.length < maxUrls →
      (parse_sitemap_aux maxUrls es acc).length ≤ maxUrls := by
  intro es
  induction es with
  | nil =>
    intro acc h
    simpa [parse_sitemap_aux] using le_of_lt h
  | cons e es ih =>
    intro acc h
    cases he : e.loc with
    | none =>
      simp only [parse_sitemap_aux, he]
      exact ih acc h
    | some url =>
      simp only [parse_sitemap_aux, he]
      by_cases hb : maxUrls ≤ (acc ++ [sitemap_indexed_url url
          (match e.priority with
            | some p => p
            | none => 1/2) e.changefreq]).length
      · rw [if_pos hb]
        simp only [List.length_append, List.length_singleton]
        omega
      · rw [if_neg hb]
        exact ih _ (lt_of_not_le hb)

theorem parse_sitemap_aux_zero :
    ∀ (es : List SitemapEntry) (acc : List IndexedUrl),
      (parse_sitemap_aux 0 es acc).length ≤ acc.length + 1 := by
  intro es
  induction es with
  | nil =>
    intro acc
    simp [parse_sitemap_aux]
  | cons e es ih =>
    intro acc
    cases he : e.loc with
    | none =>
      simp only [parse_sitemap_aux, he]
      exact ih acc
    | some url =>
      simp only [parse_sitemap_aux, he]
      rw [if_pos (Nat.zero_le _)]
      simp

theorem parse_sitemap_le (maxUrls : ℕ) (es : List SitemapEntry) :
    (parse_sitemap maxUrls es).length ≤ max maxUrls 1 := by
  unfold parse_sitemap
  cases maxUrls with
  | zero =>
    have h := parse_sitemap_aux_zero es []
    simp only [List.length_nil] at h
    omega
  | succ n =>
    have h := parse_sitemap_aux_le (n + 1) es [] (by simp)
    omega

theorem take_batch_le (crawlDepth parallel : ℕ) :
    ∀ (tv : List (String × ℕ × String)) (vis : List String)
      (b : List (String × ℕ × String)), b.length ≤ parallel →
      (take_batch crawlDepth parallel tv vis b).1.length ≤ parallel := by
  intro tv
  induction tv with
  | nil =>
    intro vis b hb
    simpa [take_batch] using hb
  | cons hd rest ih =>
    intro vis b hb
    obtain ⟨u, d, t⟩ := hd
    simp only [take_batch]
    by_cases h1 : parallel ≤ b.length
    · rw [if_pos h1]
      simpa using hb
    · rw [if_neg h1]
      by_cases h2 : ¬ u ∈ vis ∧ d ≤ crawlDepth
      · rw [if_pos h2]
        apply ih
        simp only [List.length_append, List.length_singleton]
        omega
      · rw [if_neg h2]
        exact ih vis b hb

theorem process_batch_le (f : String → Option (String × List (String × String)))
    (vis : List String) :
    ∀ batch, (process_batch f vis batch).1.length ≤ batch.length := by
  intro batch
  induction batch with
  | nil =>
    simp [process_batch]
  | cons hd rest ih =>
    obtain ⟨u, d, t⟩ := hd
    simp only [process_batch]
    cases hf : f u with
    | none =>
      simp only [List.length_cons]
      omega
    | some ft =>
      simp only [List.length_cons]
      omega

theorem crawl_loop_le (maxUrls crawlDepth parallel : ℕ)
    (f : String → Option (String × List (String × String))) :
    ∀ (fuel : ℕ) (tv : List (String × ℕ × String)) (vis : List String)
      (urls : List IndexedUrl),
      (crawl_loop maxUrls crawlDepth parallel f fuel tv vis urls).length
        ≤ max urls.length (maxUrls + parallel - 1) := by
  intro fuel
  induction fuel with
  | zero =>
    intro tv vis urls
    simp only [crawl_loop]
    exact le_max_left _ _
  | succ n ih =>
    intro tv vis urls
    simp only [crawl_loop]
    by_cases hg : tv = [] ∨ maxUrls ≤ urls.length
    · rw [if_pos hg]
      exact le_max_left _ _
    · rw [if_neg hg]
      have hu : urls.length < maxUrls := by
        push_neg at hg
        omega
      by_cases hb : (take_batch crawlDepth parallel tv vis []).1 = []
      · rw [if_pos hb]
        exact le_max_left _ _
      · rw [if_neg hb]
        have h1 : (take_batch crawlDepth parallel tv vis []).1.length ≤ parallel :=
          take_batch_le crawlDepth parallel tv vis [] (by simp)
        have h2 := process_batch_le f (take_batch crawlDepth parallel tv vis []).2.2
          (take_batch crawlDepth parallel tv vis []).1
        have h3 := ih ((take_batch crawlDepth parallel tv vis []).2.1
            ++ (process_batch f (take_batch crawlDepth parallel tv vis []).2.2
              (take_batch crawlDepth parallel tv vis []).1).2)
          (take_batch crawlDepth parallel tv vis []).2.2
          (urls ++ (process_batch f (take_batch crawlDepth parallel tv vis []).2.2
            (take_batch crawlDepth parallel tv vis []).1).1)
        have h4 : (urls ++ (process_batch f (take_batch crawlDepth parallel tv vis []).2.2
            (take_batch crawlDepth parallel tv vis []).1).1).length
            ≤ maxUrls + parallel - 1 := by
          simp only [List.length_append]
          omega
        calc (crawl_loop maxUrls crawlDepth parallel f n _ _ _).length
            ≤ _ := h3
          _ ≤ maxUrls + parallel - 1 := max_le h4 (le_refl _)
          _ ≤ max urls.length (maxUrls + parallel - 1) := le_max_right _ _

theorem crawl_urls_le (maxUrls crawlDepth parallel : ℕ)
    (f : String → Option (String × List (String × String)))
    (start : String) (fuel : ℕ) :
    (crawl_urls maxUrls crawlDepth parallel f start fuel).length
      ≤ maxUrls + parallel - 1 := by
  have h := crawl_loop_le maxUrls crawlDepth parallel f fuel [(start, 0, "")] [] []
  simpa [crawl_urls] using h

/-- C4 (amended): every index ensure_indexed builds satisfies
url_count = len(urls); a sitemap-built index respects the cap (up to the
degenerate cap 0, where one entry can still be stored), while a crawl-built
index can overshoot the cap by up to parallel_fetch_limit - 1 entries because
the bound is only checked between batches. -/
theorem ensure_indexed_amended (maxUrls crawlDepth parallel : ℕ)
    (domain now : String) (sf : Option (List SitemapEntry))
    (fl : String → Option (String × List (String × String)))
    (su : Option String) (fuel : ℕ) :
    (ensure_indexed maxUrls crawlDepth parallel domain now sf fl su fuel).url_count
        = (ensure_indexed maxUrls crawlDepth parallel domain now sf fl su fuel).urls.length
      ∧ ((ensure_indexed maxUrls crawlDepth parallel domain now sf fl su fuel).source_type
            = "sitemap" →
          (ensure_indexed maxUrls crawlDepth parallel domain now sf fl su fuel).urls.length
            ≤ max maxUrls 1)
      ∧ ((ensure_indexed maxUrls crawlDepth parallel domain now sf fl su fuel).source_type
            = "crawl" →
          (ensure_indexed maxUrls crawlDepth parallel domain now sf fl su fuel).urls.length
            ≤ maxUrls + parallel - 1) := by
  rcases sf with _ | entries
  · simp only [ensure_indexed]
    rw [if_neg (by simp)]
    exact ⟨rfl, fun hc => absurd (show ("crawl" : String) = "sitemap" from hc) (by decide),
      fun _ => crawl_urls_le _ _ _ _ _ _⟩
  · simp only [ensure_indexed]
    by_cases h : parse_sitemap maxUrls entries = []
    · rw [if_neg (by simpa using h)]
      exact ⟨rfl, fun hc => absurd (show ("crawl" : String) = "sitemap" from hc) (by decide),
        fun _ => crawl_urls_le _ _ _ _ _ _⟩
    · rw [if_pos (by simpa using h)]
      exact ⟨rfl, fun _ => parse_sitemap_le maxUrls entries,
        fun hc => absurd (show ("sitemap" : String) = "crawl" from hc) (by decide)⟩

/-- The crawl oracle of the C4 counterexample: the start page links to two
same-domain pages, which link nowhere. -/
def crawl_fetch_oracle : String → Option (String × List (String × String)) :=
  fun u =>
    if u = "https://site.local/" then
      some ("Home", [("https://site.local/a", "A"), ("https://site.local/b", "B")])
    else if u = "https://site.local/a" then some ("PageA", [])
    else if u = "https://site.local/b" then some ("PageB", [])
    else none

/-- C4 counterexample: with max_urls_per_domain = 2 and
parallel_fetch_limit = 2, the crawl fallback indexes three URLs — the second
batch is fetched whole because the cap is only consulted between batches —
refuting len(urls) less-or-equal max_urls_per_domain. -/
theorem ensure_indexed_counterexample :
    (ensure_indexed 2 3 2 "site.local" "2026-01-01T00:00:00+00:00" none
        crawl_fetch_oracle (some "https://site.local/") 5).urls.length = 3
      ∧ (ensure_indexed 2 3 2 "site.local" "2026-01-01T00:00:00+00:00" none
          crawl_fetch_oracle (some "https://site.local/") 5).url_count = 3
      ∧ ¬ ((ensure_indexed 2 3 2 "site.local" "2026-01-01T00:00:00+00:00" none
          crawl_fetch_oracle (some "https://site.local/") 5).urls.length ≤ 2) := by
  decide

/-- Witness for C4 at a concrete sitemap-built index. -/
theorem ensure_indexed_amended_witness :
    (ensure_indexed 10 3 5 "docs.example.com" "t"
        (some [⟨some "https://docs.example.com/auth", some (8/10), none⟩])
        (fun _ => none) none 0).url_count
      = (ensure_indexed 10 3 5 "docs.example.com" "t"
          (some [⟨some "https://docs.example.com/auth", some (8/10), none⟩])
          (fun _ => none) none 0).urls.length
      ∧ (ensure_indexed 10 3 5 "docs.example.com" "t"
          (some [⟨some "https://docs.example.com/auth", some (8/10), none⟩])
          (fun _ => none) none 0).urls.length ≤ max 10 1 :=
  ⟨(ensure_indexed_amended 10 3 5 "docs.example.com" "t"
      (some [⟨some "https://docs.example.com/auth", some (8/10), none⟩])
      (fun _ => none) none 0).1,
    (ensure_indexed_amended 10 3 5 "docs.example.com" "t"
      (some [⟨some "https://docs.example.com/auth", some (8/10), none⟩])
      (fun _ => none) none 0).2.1 (by decide)⟩

/-! ### Exploration loop: component lemmas -/

theorem nav_update_visited (env : SearchEnv) (cu : String) (cached : Bool)
    (fr : FetchResult) (s : ExploreState) :
    (nav_update env cu cached fr s).visited = s.visited := by
  simp only [nav_update]
  split_ifs
  all_goals rfl

theorem nav_update_pages (env : SearchEnv) (cu : String) (cached : Bool)
    (fr : FetchResult) (s : ExploreState) :
    (nav_update env cu cached fr s).pages_explored = s.pages_explored := by
  simp only [nav_update]
  split_ifs
  all_goals rfl

theorem nav_update_fetched (env : SearchEnv) (cu : String) (cached : Bool)
    (fr : FetchResult) (s : ExploreState) :
    (nav_update env cu cached fr s).fetched = s.fetched := by
  simp only [nav_update]
  split_ifs
  all_goals rfl

theorem nav_update_queue_of_no_links (env : SearchEnv) (cu : String) (cached : Bool)
    (fr : FetchResult) (s : ExploreState)
    (hl : (env.nav fr).links_to_explore = []) :
    (nav_update env cu cached fr s).to_explore = s.to_explore := by
  simp only [nav_update, hl]
  split_ifs
  all_goals simp

theorem nav_update_suff_of_insufficient (env : SearchEnv) (cu : String) (cached : Bool)
    (fr : FetchResult) (s : ExploreState)
    (hs : (env.nav fr).has_sufficient_info = false) :
    (nav_update env cu cached fr s).has_sufficient = s.has_sufficient := by
  simp only [nav_update, hs]
  split_ifs
  all_goals first
  | rfl
  | simp_all

theorem visit_update_visited (env : SearchEnv) (url : String)
    (rest : List (String × ℕ)) (s : ExploreState) :
    (visit_update env url rest s).visited = s.visited ++ [url] := by
  simp only [visit_update]
  cases hc : cache_get env.keyOf s.cache url with
  | some cp =>
    simp only [nav_update_visited]
  | none =>
    cases hf : env.fetch url with
    | none => rfl
    | some fr => simp only [nav_update_visited]

theorem visit_update_pages (env : SearchEnv) (url : String)
    (rest : List (String × ℕ)) (s : ExploreState) :
    (visit_update env url rest s).pages_explored = s.pages_explored + 1 := by
  simp only [visit_update]
  cases hc : cache_get env.keyOf s.cache url with
  | some cp =>
    simp only [nav_update_pages]
  | none =>
    cases hf : env.fetch url with
    | none => rfl
    | some fr => simp only [nav_update_pages]

theorem visit_update_queue_of_no_links (env : SearchEnv) (url : String)
    (rest : List (String × ℕ)) (s : ExploreState)
    (hl : ∀ fr, (env.nav fr).links_to_explore = []) :
    (visit_update env url rest s).to_explore = rest := by
  simp only [visit_update]
  cases hc : cache_get env.keyOf s.cache url with
  | some cp =>
    simp only [nav_update_queue_of_no_links _ _ _ _ _ (hl _)]
  | none =>
    cases hf : env.fetch url with
    | none => rfl
    | some fr => simp only [nav_update_queue_of_no_links _ _ _ _ _ (hl _)]

theorem visit_update_suff_of_insufficient (env : SearchEnv) (url : String)
    (rest : List (String × ℕ)) (s : ExploreState)
    (hs : ∀ fr, (env.nav fr).has_sufficient_info = false) :
    (visit_update env url rest s).has_sufficient = s.has_sufficient := by
  simp only [visit_update]
  cases hc : cache_get env.keyOf s.cache url with
  | some cp =>
    simp only [nav_update_suff_of_insufficient _ _ _ _ _ (hs _)]
  | none =>
    cases hf : env.fetch url with
    | none => rfl
    | some fr => simp only [nav_update_suff_of_insufficient _ _ _ _ _ (hs _)]

/-- The per-state invariant behind boundedness and fetch freshness: the ghost
fetch trace has no duplicates, every fetched URL is already visited, the
fetch count never exceeds the page count, and the page count never exceeds
the budget. -/
def FetchInv (env : SearchEnv) (s : ExploreState) : Prop :=
  s.fetched.Nodup ∧ (∀ u ∈ s.fetched, u ∈ s.visited)
    ∧ s.fetched.length ≤ s.pages_explored ∧ s.pages_explored ≤ env.maxPages

theorem visit_update_fetch_inv (env : SearchEnv) (url : String)
    (rest : List (String × ℕ)) (s : ExploreState)
    (hvis : ¬ url ∈ s.visited) (hpages : s.pages_explored < env.maxPages)
    (hInv : FetchInv env s) : FetchInv env (visit_update env url rest s) := by
  obtain ⟨hnd, hsub, hlen, hmax⟩ := hInv
  have hnewd : (s.fetched ++ [url]).Nodup := by
    apply List.Nodup.append hnd (List.nodup_singleton url)
    intro a ha hb
    rw [List.mem_singleton] at hb
    subst hb
    exact hvis (hsub a ha)
  unfold FetchInv
  simp only [visit_update]
  cases hc : cache_get env.keyOf s.cache url with
  | some cp =>
    refine ⟨?_, ?_, ?_, ?_⟩
    · rw [nav_update_fetched]
      exact hnd
    · rw [nav_update_fetched, nav_update_visited]
      intro u hu
      exact List.mem_append_left _ (hsub u hu)
    · rw [nav_update_fetched, nav_update_pages]
      show s.fetched.length ≤ s.pages_explored + 1
      omega
    · rw [nav_update_pages]
      show s.pages_explored + 1 ≤ env.maxPages
      omega
  | none =>
    cases env.fetch url with
    | none =>
      refine ⟨hnewd, ?_, ?_, ?_⟩
      · intro u hu
        rcases List.mem_append.mp hu with h | h
        · exact List.mem_append_left _ (hsub u h)
        · rw [List.mem_singleton] at h
          subst h
          exact List.mem_append_right _ (List.mem_singleton_self u)
      · show (s.fetched ++ [url]).length ≤ s.pages_explored + 1
        simp only [List.length_append, List.length_singleton]
        omega
      · show s.pages_explored + 1 ≤ env.maxPages
        omega
    | some fr =>
      refine ⟨?_, ?_, ?_, ?_⟩
      · rw [nav_update_fetched]
        exact hnewd
      · rw [nav_update_fetched, nav_update_visited]
        intro u hu
        rcases List.mem_append.mp hu with h | h
        · exact List.mem_append_left _ (hsub u h)
        · rw [List.mem_singleton] at h
          subst h
          exact List.mem_append_right _ (List.mem_singleton_self u)
      · rw [nav_update_fetched, nav_update_pages]
        show (s.fetched ++ [url]).length ≤ s.pages_explored + 1
        simp only [List.length_append, List.length_singleton]
        omega
      · rw [nav_update_pages]
        show s.pages_explored + 1 ≤ env.maxPages
        omega

theorem explore_loop_fetch_inv (env : SearchEnv) :
    ∀ (fuel : ℕ) (s : ExploreState), FetchInv env s →
      FetchInv env (explore_loop env fuel s) := by
  intro fuel
  induction fuel with
  | zero =>
    intro s h
    exact h
  | succ n ih =>
    intro s h
    simp only [explore_loop]
    by_cases hg : s.to_explore = [] ∨ env.maxPages ≤ s.pages_explored
        ∨ s.has_sufficient = true
    · rw [if_pos hg]
      exact h
    · rw [if_neg hg]
      rcases hq : sort_queue s.to_explore with _ | ⟨⟨url, p⟩, rest⟩
      · exact h
      · simp only []
        by_cases hv : url ∈ s.visited
        · rw [if_pos hv]
          exact ih _ h
        · rw [if_neg hv]
          apply ih
          apply visit_update_fetch_inv env url rest s hv
          · push_neg at hg
            omega
          · exact h

/-- C1: in every invocation of the exploration loop of _deep_search — for any
oracles, any cache contents, any candidate priming and any amount of fuel —
the URLs handed to the fetcher are pairwise distinct and number at most
max_pages, because each fetch happens inside an iteration that marks a fresh
URL visited and consumes one unit of the page budget. -/
theorem search_fetch_bounded (env : SearchEnv) (cache0 : List (String × CachedPage))
    (similar : List (List CachedPage)) (cands : List (String × ℚ))
    (seeds : List String) (fuel : ℕ) :
    (run_exploration env cache0 similar cands seeds fuel).fetched.Nodup
      ∧ (run_exploration env cache0 similar cands seeds fuel).fetched.length
        ≤ env.maxPages := by
  have h := explore_loop_fetch_inv env fuel
    { to_explore := (prime_queue (prime_from_cache similar).1 cands seeds).1,
      visited := (prime_from_cache similar).1, pages_explored := 0,
      has_sufficient := false, collected := (prime_from_cache similar).2.1,
      sources := (prime_from_cache similar).2.2
        ++ (prime_queue (prime_from_cache similar).1 cands seeds).2,
      cache := cache0, fetched := [] }
    ⟨List.nodup_nil, by simp, by simp, Nat.zero_le _⟩
  obtain ⟨h1, _, h3, h4⟩ := h
  exact ⟨h1, le_trans h3 h4⟩

/-! ### Exploration order under a silent navigator -/

theorem insort_q_of_le (x : String × ℕ) (q : List (String × ℕ))
    (h : ∀ y ∈ q, x.2 ≤ y.2) : insort_q x q = x :: q := by
  cases q with
  | nil => rfl
  | cons y ys =>
    unfold insort_q
    rw [if_pos (h y (List.mem_cons_self _ _))]

theorem sort_queue_of_pairwise (q : List (String × ℕ))
    (h : q.Pairwise (fun a b => a.2 ≤ b.2)) : sort_queue q = q := by
  induction q with
  | nil => rfl
  | cons x xs ih =>
    rw [List.pairwise_cons] at h
    unfold sort_queue
    rw [ih h.2]
    exact insort_q_of_le x xs h.1

theorem explore_loop_of_empty (env : SearchEnv) :
    ∀ (fuel : ℕ) (s : ExploreState), s.to_explore = [] →
      explore_loop env fuel s = s := by
  intro fuel
  cases fuel with
  | zero =>
    intro s _
    rfl
  | succ n =>
    intro s h
    simp only [explore_loop]
    rw [if_pos (Or.inl h)]

theorem explore_loop_visit_order (env : SearchEnv)
    (hnav : ∀ fr, (env.nav fr).links_to_explore = []
      ∧ (env.nav fr).has_sufficient_info = false) :
    ∀ (q : List (String × ℕ)) (fuel : ℕ) (s : ExploreState),
      s.to_explore = q → q.Pairwise (fun a b => a.2 ≤ b.2) →
      (q.map Prod.fst).Nodup →
      (∀ u ∈ q.map Prod.fst, ¬ u ∈ s.visited) →
      s.pages_explored + q.length ≤ env.maxPages →
      s.has_sufficient = false → q.length ≤ fuel →
      (explore_loop env fuel s).visited = s.visited ++ q.map Prod.fst := by
  intro q
  induction q with
  | nil =>
    intro fuel s hq _ _ _ _ _ _
    rw [explore_loop_of_empty env fuel s hq]
    simp
  | cons x xs ih =>
    intro fuel s hq hpw hnd hunvis hbudget hsuff hfuel
    cases fuel with
    | zero =>
      simp at hfuel
    | succ n =>
      have hne : ¬ s.to_explore = [] := by
        rw [hq]
        simp
      have hpages : s.pages_explored < env.maxPages := by
        simp only [List.length_cons] at hbudget
        omega
      have hguard : ¬ (s.to_explore = [] ∨ env.maxPages ≤ s.pages_explored
          ∨ s.has_sufficient = true) := by
        push_neg
        refine ⟨hne, by omega, by simp [hsuff]⟩
      rw [List.pairwise_cons] at hpw
      have hsorted : sort_queue s.to_explore = x :: xs := by
        rw [hq]
        exact sort_queue_of_pairwise _ (List.pairwise_cons.mpr hpw)
      have hxfresh : ¬ x.1 ∈ s.visited :=
        hunvis x.1 (by simp)
      have hstep : explore_loop env (n + 1) s
          = explore_loop env n (visit_update env x.1 xs s) := by
        simp only [explore_loop]
        rw [if_neg hguard, hsorted]
        simp only []
        rw [if_neg hxfresh]
      rw [hstep]
      have hv := visit_update_visited env x.1 xs s
      have hp := visit_update_pages env x.1 xs s
      have hqn := visit_update_queue_of_no_links env x.1 xs s (fun fr => (hnav fr).1)
      have hsf := visit_update_suff_of_insufficient env x.1 xs s (fun fr => (hnav fr).2)
      have hnd2 : (xs.map Prod.fst).Nodup := (List.nodup_cons.mp (by simpa using hnd)).2
      have hxnotin : ¬ x.1 ∈ xs.map Prod.fst :=
        (List.nodup_cons.mp (by simpa using hnd)).1
      have hrec := ih n (visit_update env x.1 xs s) hqn hpw.2 hnd2
        (by
          intro u hu
          rw [hv]
          simp only [List.mem_append, List.mem_singleton]
          rintro (h | h)
          · exact hunvis u (by simp [hu]) h
          · subst h
            exact hxnotin hu)
        (by
          rw [hp]
          simp only [List.length_cons] at hbudget
          omega)
        (by rw [hsf, hsuff])
        (by
          simp only [List.length_cons] at hfuel
          omega)
      rw [hrec, hv]
      simp

/-- C2: with sitemap candidates scoring s1 > s2 ≥ min_match_score and one
seed URL, all distinct, a navigator that never recommends links and never
reports sufficiency, no cache-similar prefetch, fetch budget and fuel at
least three, the loop visits the s1 candidate, then the s2 candidate, then
the seed — candidates carry priority max(0, min(9, int(10 - score))) which
is at most 9, seeds carry priority 10, and the stable sort breaks ties by
insertion order. -/
theorem sitemap_priority_order (env : SearchEnv)
    (cache0 : List (String × CachedPage)) (u1 u2 seed : String)
    (s1 s2 min_match_score : ℚ) (fuel : ℕ)
    (hnav : ∀ fr, (env.nav fr).links_to_explore = []
      ∧ (env.nav fr).has_sufficient_info = false)
    (h12 : s2 < s1) (_hmin : min_match_score ≤ s2)
    (hd1 : ¬ u1 = u2) (hd2 : ¬ u1 = seed) (hd3 : ¬ u2 = seed)
    (hmax : 3 ≤ env.maxPages) (hfuel : 3 ≤ fuel) :
    (run_exploration env cache0 [] [(u1, s1), (u2, s2)] [seed] fuel).visited
      = [u1, u2, seed] := by
  have hinit : run_exploration env cache0 [] [(u1, s1), (u2, s2)] [seed] fuel
      = explore_loop env fuel
        { to_explore := [(u1, prio_of_score s1), (u2, prio_of_score s2), (seed, 10)],
          visited := [], pages_explored := 0, has_sufficient := false,
          collected := [],
          sources := ["[sitemap-match] " ++ u1, "[sitemap-match] " ++ u2],
          cache := cache0, fetched := [] } := rfl
  rw [hinit]
  have hp1 : prio_of_score s1 ≤ prio_of_score s2 :=
    prio_of_score_antitone (le_of_lt h12)
  have hp19 : prio_of_score s1 ≤ 9 := prio_of_score_le_9 s1
  have hp29 : prio_of_score s2 ≤ 9 := prio_of_score_le_9 s2
  have h := explore_loop_visit_order env hnav
    [(u1, prio_of_score s1), (u2, prio_of_score s2), (seed, 10)] fuel
    { to_explore := [(u1, prio_of_score s1), (u2, prio_of_score s2), (seed, 10)],
      visited := [], pages_explored := 0, has_sufficient := false,
      collected := [],
      sources := ["[sitemap-match] " ++ u1, "[sitemap-match] " ++ u2],
      cache := cache0, fetched := [] }
    rfl
    (by
      refine List.pairwise_cons.mpr ⟨?_, List.pairwise_cons.mpr ⟨?_, ?_⟩⟩
      · intro y hy
        rcases List.mem_cons.mp hy with h | h
        · subst h
          exact hp1
        · rw [List.mem_singleton] at h
          subst h
          omega
      · intro y hy
        rw [List.mem_singleton] at hy
        subst hy
        show prio_of_score s2 ≤ 10
        omega
      · simp)
    (by simp [hd1, hd2, hd3])
    (by simp)
    (by simpa using hmax)
    rfl
    (by simpa using hfuel)
  rw [h]
  simp

/-- Witness for C2 at concrete scores 9 > 3 ≥ 1 and a three-page budget. -/
theorem sitemap_priority_order_witness :
    (run_exploration
        ⟨3, 50000, [], fun u => u, "t", fun _ => none, fun _ => ⟨false, "", "", []⟩⟩
        [] [] [("https://d/a", 9), ("https://d/b", 3)] ["https://d/"] 3).visited
      = ["https://d/a", "https://d/b", "https://d/"] :=
  sitemap_priority_order
    ⟨3, 50000, [], fun u => u, "t", fun _ => none, fun _ => ⟨false, "", "", []⟩⟩
    [] "https://d/a" "https://d/b" "https://d/" 9 3 1 3
    (fun _ => ⟨rfl, rfl⟩) (by norm_num) (by norm_num)
    (by decide) (by decide) (by decide) (le_refl 3) (le_refl 3)

/-! ### Synthesis failure propagation and the sitemap_used flag -/

/-- C3 (amended): when excerpts were collected and the terminal synthesis LLM
call raises, _deep_search propagates the exception to its caller instead of
returning a structured result — the source wraps _analyze_page in a
try/except but not _synthesize_answer, and no error-shaped dictionary with
the collected sources is produced. -/
theorem synthesis_error_propagates (env : SearchEnv)
    (cache0 : List (String × CachedPage)) (similar : List (List CachedPage))
    (cands : List (String × ℚ)) (seeds : List String) (local_content : String)
    (synth : List (String × String) → Except SynthError String) (fuel : ℕ)
    (e : SynthError)
    (hne : ¬ ((run_exploration env cache0 similar cands seeds fuel).collected
        ++ (if ¬ local_content = "" then [("[local]", local_content)] else [])) = [])
    (hsynth : synth ((run_exploration env cache0 similar cands seeds fuel).collected
        ++ (if ¬ local_content = "" then [("[local]", local_content)] else []))
      = Except.error e) :
    deep_search env cache0 similar cands seeds local_content synth fuel
      = Except.error e := by
  simp only [deep_search]
  rw [if_neg hne, hsynth]

/-- The concrete environment of the C3 scenario: one seed page whose
navigation decision collects an excerpt and reports sufficiency. -/
def sufficient_env : SearchEnv :=
  ⟨1, 100, ["docs.example.com"], fun u => u, "t",
    fun u => some ⟨u, "body", "Title", []⟩,
    fun _ => ⟨true, "relevant excerpt", "summary", []⟩⟩

/-- The synthesis oracle of the C3 scenario: the LLM call raises. -/
def raising_synth : List (String × String) → Except SynthError String :=
  fun _ => Except.error SynthError.llm_raised

/-- C3 counterexample: on a run that collected an excerpt (its sources list
is nonempty), a raising synthesis call makes _deep_search itself raise — the
result is the propagated exception, not a structured dictionary carrying
error: synthesis failed and the sources. -/
theorem synthesis_error_counterexample :
    deep_search sufficient_env [] [] [] ["https://docs.example.com/"] ""
        raising_synth 1
      = Except.error SynthError.llm_raised
      ∧ ¬ (run_exploration sufficient_env [] [] [] ["https://docs.example.com/"] 1).sources
        = [] := by
  constructor
  · rfl
  · decide

/-- Witness for C3 applying the amended theorem at the concrete scenario. -/
theorem synthesis_error_propagates_witness :
    deep_search sufficient_env [] [] [] ["https://docs.example.com/"] ""
        raising_synth 1
      = Except.error SynthError.llm_raised :=
  synthesis_error_propagates sufficient_env [] [] [] ["https://docs.example.com/"]
    "" raising_synth 1 SynthError.llm_raised (by decide) rfl

/-- C9: whenever search returns a result dictionary, its sitemap_used flag is
true exactly when sitemap_candidates is positive, i.e. when some index match
passed the min_match_score filter; the flag never consults the source_type of
the domain index, so a crawl-built index that yields matches also sets it. -/
theorem sitemap_used_iff_candidates (env : SearchEnv)
    (cache0 : List (String × CachedPage)) (similar : List (List CachedPage))
    (enabled : Bool) (min_match_score : ℚ) (max_url_candidates : ℕ)
    (idx : Option DomainIndexL) (query : String) (seeds : List String)
    (local_content : String)
    (synth : List (String × String) → Except SynthError String) (fuel : ℕ)
    (r : SearchResult)
    (h : search_with_index env cache0 similar enabled min_match_score
        max_url_candidates idx query seeds local_content synth fuel
      = Except.ok r) :
    r.sitemap_used = true ↔ 0 < r.sitemap_candidates := by
  simp only [search_with_index, deep_search] at h
  repeat' split at h
  all_goals try rw [Except.ok.injEq] at h
  all_goals try subst h
  all_goals first
  | cases h
  | simp

instance {α β : Type} [DecidableEq α] [DecidableEq β] : DecidableEq (Except α β)
  | Except.error a, Except.error b =>
    if h : a = b then isTrue (by rw [h]) else isFalse (fun he => h (Except.error.inj he))
  | Except.error _, Except.ok _ => isFalse (fun h => Except.noConfusion h)
  | Except.ok _, Except.error _ => isFalse (fun h => Except.noConfusion h)
  | Except.ok a, Except.ok b =>
    if h : a = b then isTrue (by rw [h]) else isFalse (fun he => h (Except.ok.inj he))

/-- Witness for C9 at a run whose index build raised (idx none), so no
candidate passed the filter and the returned flag is false with count 0. -/
theorem sitemap_used_iff_candidates_witness :
    (SearchResult.mk "No relevant documentation found." [] 0 false 0).sitemap_used = true
      ↔ 0 < (SearchResult.mk "No relevant documentation found."
        [] 0 false 0).sitemap_candidates :=
  sitemap_used_iff_candidates
    ⟨0, 100, [], fun u => u, "t", fun _ => none, fun _ => ⟨false, "", "", []⟩⟩
    [] [] true 1 5 none "auth token" [] ""
    (fun _ => Except.error SynthError.llm_raised) 0
    (SearchResult.mk "No relevant documentation found." [] 0 false 0)
    (by decide)

end Doc2Mcp
